import Mathlib

/-!
Verification of the fetch-orchestration core of the LLM-TXT connectors
(Farcaster connector, `server/src/index.ts`, and its SDK client,
`sdk/src/client.ts` / `sdk/src/config.ts`).

The definitions below are shallow embeddings of the TypeScript source:
JavaScript numbers that only ever hold non-negative integers (timestamps,
limits, fids, HTTP statuses) become `Nat`; `undefined`-able fields become
`Option`; exceptions become `Except`; the upstream Neynar API is an explicit
function parameter.  Names follow the source where Lean allows it.
-/

/-! ## Request parameters (`shared/src/types/farcaster.ts`, `FarcasterQueryParams`) -/

/-- `sortOrder ∈ {"newest", "oldest"}`. -/
inductive SortOrder where
  | newest
  | oldest
deriving DecidableEq, Repr

/-- Query parameters for the Farcaster connector.  Field order and names follow
`FarcasterQueryParams` in `shared/src/types/farcaster.ts`; every field is
optional there, hence `Option` here. -/
structure FarcasterQueryParams where
  fid : Option Nat := none
  username : Option String := none
  limit : Option Nat := none
  sortOrder : Option SortOrder := none
  includeReplies : Option Bool := none
  all : Option Bool := none
  includeReactions : Option Bool := none
  includeParents : Option Bool := none
deriving DecidableEq, Repr

/-- JavaScript truthiness of an optional boolean (`options.all`,
`options.includeReplies`, ...): `undefined` and `false` are falsy. -/
def boolTrue (b : Option Bool) : Bool :=
  b.getD false

/-- The effective limit `options.limit || 50` / `Number(params.limit) || 50`:
an absent limit, like an explicit `0` (both falsy in JavaScript), yields the
default `50`. -/
def effectiveLimit (limit : Option Nat) : Nat :=
  match limit with
  | some n => if n = 0 then 50 else n
  | none => 50

/-! ## Free-tier classifier (`sdk/src/client.ts`, `isFreeTier`) -/

/-- `FREE_TIER.maxLimit` in `sdk/src/client.ts`. -/
def FREE_TIER_maxLimit : Nat := 10

/-- `isFreeTier` from `sdk/src/client.ts`:
`limit = options.limit || 50`; not free when `limit > FREE_TIER.maxLimit`,
when `options.all`, `options.includeReplies` or `options.includeParents` is
truthy; free otherwise. -/
def isFreeTier (options : FarcasterQueryParams) : Bool :=
  let limit := effectiveLimit options.limit
  if FREE_TIER_maxLimit < limit then false
  else if boolTrue options.all then false
  else if boolTrue options.includeReplies then false
  else if boolTrue options.includeParents then false
  else true

/-! ## Pricing fingerprint (`sdk/src/client.ts`, `getPricingFingerprint`) -/

/-- `getPricingFingerprint` from `sdk/src/client.ts`:
`[fid?.toString() || username || "", all ? "all" : (limit || 50).toString(),
includeReplies ? "r" : "", includeParents ? "p" : "",
includeReactions ? "x" : ""].join("|")`.
A present `fid` always stringifies to a non-empty (truthy) string, so only an
absent `fid` falls through to `username`. -/
def getPricingFingerprint (options : FarcasterQueryParams) : String :=
  let idPart :=
    match options.fid with
    | some n => toString n
    | none => options.username.getD ""
  let countPart :=
    if boolTrue options.all then "all" else toString (effectiveLimit options.limit)
  String.intercalate "|"
    [idPart, countPart,
     if boolTrue options.includeReplies then "r" else "",
     if boolTrue options.includeParents then "p" else "",
     if boolTrue options.includeReactions then "x" else ""]

/-- Modelled from the spec: "semantically equal after default-filling".  Fills
every omitted parameter with its documented default (`limit` 50, `sortOrder`
"newest", booleans `false`), normalising falsy explicit values the way the
code does (`limit: 0` behaves as the default).  Identifiers are not defaulted.
Used only to state the fingerprint-invariance claim. -/
def defaultFill (o : FarcasterQueryParams) : FarcasterQueryParams :=
  { fid := o.fid
    username := o.username
    limit := some (effectiveLimit o.limit)
    sortOrder := some (o.sortOrder.getD SortOrder.newest)
    includeReplies := some (boolTrue o.includeReplies)
    all := some (boolTrue o.all)
    includeReactions := some (boolTrue o.includeReactions)
    includeParents := some (boolTrue o.includeParents) }

/-! ## TTL cache (`server/src/index.ts`, `getCached` / `setCache`)

The server `cache` is a `Map<string, { data, expiry }>`; we model it as a
total function from keys to optional entries.  `Date.now()` becomes an
explicit `now : Nat` argument. -/

structure CacheEntry (α : Type) where
  data : α
  expiry : Nat
deriving DecidableEq, Repr

def CacheMap (α : Type) : Type := String → Option (CacheEntry α)

def emptyCache {α : Type} : CacheMap α := fun _ => none

/-- `getCached` from `server/src/index.ts`: a missing entry, or one with
`Date.now() > item.expiry`, is deleted and reported as `null`; otherwise the
stored data is returned.  The result pairs the (possibly evicted) cache with
the read value. -/
def getCached {α : Type} (cache : CacheMap α) (now : Nat) (key : String) :
    CacheMap α × Option α :=
  match cache key with
  | none => (fun k => if k = key then none else cache k, none)
  | some item =>
    if item.expiry < now then (fun k => if k = key then none else cache k, none)
    else (cache, some item.data)

/-- `setCache` from `server/src/index.ts`: stores `(data, Date.now() + ttl)`.
The source defaults `ttl` to `60000`; callers here always pass it explicitly. -/
def setCache {α : Type} (cache : CacheMap α) (now : Nat) (key : String) (data : α)
    (ttl : Nat) : CacheMap α :=
  fun k => if k = key then some ⟨data, now + ttl⟩ else cache k

/-! ## Identifier resolution (`server/src/index.ts`, `resolveFid`) -/

/-- Outcome of `client.lookupUserByUsername`: a user with a given `fid`, a
response without a usable user, or a thrown SDK/network error. -/
inductive UserLookupResult where
  | user (fid : Nat)
  | noUser
  | apiError (msg : String)

/-- Error taxonomy of the request path: the provider reported no match
(`throw new Error("User not found: ...")`) versus an upstream/SDK failure. -/
inductive AppError where
  | notFound (msg : String)
  | upstream (msg : String)
deriving DecidableEq, Repr

def AppError.message : AppError → String
  | .notFound m => m
  | .upstream m => m

/-- `username.toLowerCase().replace(/^@/, "")`, as used by both the server `resolveFid` and the client query-string builder. -/
def normalizeUsername (username : String) : String :=
  let lower := username.toLower
  if lower.startsWith "@" then lower.drop 1 else lower

/-- `resolveFid` from `server/src/index.ts`.  A cached fid is returned only if
truthy (`if (cached)` — a cached `0` falls through); `!user?.fid` (no user, or
fid `0`) throws `User not found: <original username>`; a successful lookup is
cached for 300000 ms.  Returns the resolved fid together with the updated
cache. -/
def resolveFid (lookupUser : String → UserLookupResult) (cache : CacheMap Nat)
    (now : Nat) (username : String) : Except AppError (Nat × CacheMap Nat) :=
  let normalized := normalizeUsername username
  let read := getCached cache now ("fid:" ++ normalized)
  let cachedHit :=
    match read.2 with
    | some fid => if fid = 0 then none else some fid
    | none => none
  match cachedHit with
  | some fid => .ok (fid, read.1)
  | none =>
    match lookupUser normalized with
    | .apiError msg => .error (.upstream msg)
    | .noUser => .error (.notFound ("User not found: " ++ username))
    | .user fid =>
      if fid = 0 then .error (.notFound ("User not found: " ++ username))
      else .ok (fid, setCache read.1 now ("fid:" ++ normalized) fid 300000)

/-- The route catch-all (`server/src/index.ts`, `app.get("/", ...)`):
every thrown error is rendered as `c.text("Error: " + err.message, 500)`. -/
def handleRequestError (e : AppError) : Nat × String :=
  (500, "Error: " ++ e.message)

/-! ## Casts and pagination (`server/src/index.ts`, `fetchCasts`)

A `BaseCast` is the shape produced by `transformCast` (minus fields the core
never branches on); `FarcasterCast` additionally carries the `parentCast`
link that the parent-resolution step fills in.  The upstream feed
(`client.fetchCastsForUser`) is modelled as the full cast sequence of the user,
newest first, served in pages of 150 with a cursor that is present exactly
while items remain; `client.lookupCastByHashOrUrl` is a function from a hash
to a lookup outcome. -/

structure BaseCast where
  hash : String
  parentHash : Option String := none
  timestamp : String := ""
deriving DecidableEq, Repr

structure FarcasterCast extends BaseCast where
  parentCast : Option BaseCast := none
deriving DecidableEq, Repr

/-- JavaScript truthiness of an optional string (`c.parent_hash`,
`c.parentHash`): absent and `""` are falsy. -/
def truthyStr (s : Option String) : Bool :=
  match s with
  | none => false
  | some str => str ≠ ""

/-- `limit: 150` in the `fetchCastsForUser` call — "Always fetch max per
request for efficiency". -/
def PAGE_SIZE : Nat := 150

/-- The `do { ... } while (cursor && (fetchAll || allCasts.length < limit))`
pagination loop of `fetchCasts`.  One iteration takes a page of 150 from the
remaining upstream items, applies the reply filter
`(c) => includeReplies || !c.parent_hash`, appends to the accumulator, and
continues while a cursor remains (items left upstream) and either `fetchAll`
holds or fewer than `limit` items have accumulated.  `fuel` (instantiated
with the dataset length, an upper bound on the page count) makes the
recursion structural. -/
def fetchCastsLoop (includeReplies fetchAll : Bool) (limit : Nat) :
    Nat → List BaseCast → List BaseCast → List BaseCast
  | 0, acc, _ => acc
  | fuel + 1, acc, remaining =>
    let page := remaining.take PAGE_SIZE
    let filtered := page.filter (fun c => includeReplies || !(truthyStr c.parentHash))
    let acc' := acc ++ filtered
    let rest := remaining.drop PAGE_SIZE
    if rest.isEmpty then acc'
    else if fetchAll = true ∨ acc'.length < limit then
      fetchCastsLoop includeReplies fetchAll limit fuel acc' rest
    else acc'

/-- Outcome of one `client.lookupCastByHashOrUrl` call inside the parent
batch: a cast was returned (`res.cast`), the response had no cast
(`res.cast` null), or the call threw (caught and logged by the source). -/
inductive CastLookup where
  | found (c : BaseCast)
  | missing
  | errored

/-- What one entry of the `Promise.all` of a batch contributes: the transformed
cast on success, `null` on a miss or a caught error. -/
def castLookupResult : CastLookup → Option BaseCast
  | .found c => some c
  | .missing => none
  | .errored => none

/-- `const batchSize = 25` in `fetchCasts`. -/
def BATCH_SIZE : Nat := 25

/-- Partitions the distinct parent hashes into slices of `BATCH_SIZE`
(`parentHashes.slice(i, i + batchSize)` for `i = 0, 25, 50, ...`).  `fuel`
(instantiated with the list length) makes the recursion structural. -/
def chunkBatchesGo : Nat → List String → List (List String)
  | _, [] => []
  | 0, _ :: _ => []
  | fuel + 1, h :: t =>
    (h :: t).take BATCH_SIZE :: chunkBatchesGo fuel ((h :: t).drop BATCH_SIZE)

def chunkBatches (hashes : List String) : List (List String) :=
  chunkBatchesGo hashes.length hashes

/-- The `Promise.all(batch.map(...))` of one batch: each hash is looked up
independently, an error or miss contributing `null` without affecting the
other lookups of the batch. -/
def batchResults (lookupCast : String → CastLookup) (batch : List String) :
    List (String × Option BaseCast) :=
  batch.map (fun h => (h, castLookupResult (lookupCast h)))

/-- What one batch contributes to `parentMap`:
`results.forEach(([hash, cast]) => { if (cast) parentMap[hash] = cast })`
keeps only the successful lookups of the batch. -/
def entriesOfBatch (lookupCast : String → CastLookup) (batch : List String) :
    List (String × BaseCast) :=
  (batchResults lookupCast batch).filterMap (fun p => p.2.map (fun c => (p.1, c)))

/-- The `parentMap` record: batches are processed in order, each appending
its successful lookups. -/
def buildParentMap (lookupCast : String → CastLookup) (hashes : List String) :
    List (String × BaseCast) :=
  (chunkBatches hashes).foldl
    (fun parentMap batch => parentMap ++ entriesOfBatch lookupCast batch) []

/-- `[...new Set(xs)]`: deduplication keeping first occurrences in order. -/
def dedupFirst (l : List String) : List String :=
  l.foldl (fun acc x => if x ∈ acc then acc else acc ++ [x]) []

/-- `fetchCasts` from `server/src/index.ts`: paginate with the reply filter,
reverse once if `sortOrder === "oldest"`, resolve the distinct truthy parent
hashes in batches of 25 when `includeParents`, attach `parentCast` where a
lookup succeeded, and finally return everything when `fetchAll` and
`allCasts.slice(0, limit)` otherwise. -/
def fetchCasts (dataset : List BaseCast) (lookupCast : String → CastLookup)
    (params : FarcasterQueryParams) : List FarcasterCast :=
  let fetchAll := params.all == some true
  let limit := effectiveLimit params.limit
  let includeReplies := params.includeReplies == some true
  let includeParents := params.includeParents == some true
  let sortOrder := params.sortOrder.getD SortOrder.newest
  let allCasts := fetchCastsLoop includeReplies fetchAll limit dataset.length [] dataset
  let sorted := if sortOrder = SortOrder.oldest then allCasts.reverse else allCasts
  let enriched :=
    if includeParents then
      let parentHashes :=
        dedupFirst (sorted.filterMap
          (fun c => match c.parentHash with
            | some h => if h = "" then none else some h
            | none => none))
      let parentMap := buildParentMap lookupCast parentHashes
      sorted.map (fun c =>
        { toBaseCast := c
          parentCast :=
            match c.parentHash with
            | some h => if h = "" then none else List.lookup h parentMap
            | none => none })
    else
      sorted.map (fun c => { toBaseCast := c, parentCast := none })
  if fetchAll then enriched else enriched.take limit

/-! ## Rate limiter (`server/src/index.ts`, class `RateLimiter`)

State: one timestamp list per endpoint plus a global list, oldest first
(requests are pushed at the end).  A single evaluation of the body of
`waitForSlot` at time `now` prunes both windows and either records the
request (below both ceilings) or leaves the pruned state and suspends — the
caller then re-evaluates from scratch, which a trace of evaluations models.
-/

def WINDOW_MS : Nat := 60000

def ENDPOINT_LIMIT : Nat := 250

def GLOBAL_LIMIT : Nat := 450

/-- `cleanOldRequests`: keep the timestamps with `now - timestamp < WINDOW_MS`. -/
def cleanOldRequests (now : Nat) (requests : List Nat) : List Nat :=
  requests.filter (fun timestamp => decide (now - timestamp < WINDOW_MS))

structure RateLimiterState where
  endpointRequests : String → List Nat
  globalRequests : List Nat

def initRateLimiter : RateLimiterState :=
  ⟨fun _ => [], []⟩

/-- One evaluation of `waitForSlot(endpoint)` at time `now`: prune both
windows; if `globalCount >= GLOBAL_LIMIT || endpointCount >= ENDPOINT_LIMIT`,
keep the pruned state and report `false` (the caller suspends and will
re-evaluate); otherwise push `now` onto both windows and report `true`
(admitted). -/
def waitForSlotStep (st : RateLimiterState) (endpoint : String) (now : Nat) :
    RateLimiterState × Bool :=
  if GLOBAL_LIMIT ≤ (cleanOldRequests now st.globalRequests).length
      ∨ ENDPOINT_LIMIT ≤ (cleanOldRequests now (st.endpointRequests endpoint)).length then
    (⟨fun e => if e = endpoint then cleanOldRequests now (st.endpointRequests endpoint)
               else st.endpointRequests e,
      cleanOldRequests now st.globalRequests⟩, false)
  else
    (⟨fun e => if e = endpoint then cleanOldRequests now (st.endpointRequests endpoint) ++ [now]
               else st.endpointRequests e,
      cleanOldRequests now st.globalRequests ++ [now]⟩, true)

/-- Runs a sequence of `waitForSlot` body evaluations, each given as an
`(endpoint, time)` pair. -/
def runCalls (st : RateLimiterState) : List (String × Nat) → RateLimiterState
  | [] => st
  | c :: rest => runCalls (waitForSlotStep st c.1 c.2).1 rest

/-- The timestamps of the evaluations in the trace that were admitted
(recorded) for endpoint `e`. -/
def admittedEndpoint (st : RateLimiterState) (e : String) :
    List (String × Nat) → List Nat
  | [] => []
  | c :: rest =>
    (if (waitForSlotStep st c.1 c.2).2 = true ∧ c.1 = e then [c.2] else [])
      ++ admittedEndpoint (waitForSlotStep st c.1 c.2).1 e rest

/-- The timestamps of all admitted (recorded) evaluations in the trace. -/
def admittedGlobal (st : RateLimiterState) : List (String × Nat) → List Nat
  | [] => []
  | c :: rest =>
    (if (waitForSlotStep st c.1 c.2).2 = true then [c.2] else [])
      ++ admittedGlobal (waitForSlotStep st c.1 c.2).1 rest

/-! ## SDK client transport (`sdk/src/client.ts`, `LlmFidClient`) -/

structure HttpResponse where
  status : Nat
  body : String
deriving DecidableEq, Repr

/-- Outcome of one transport invocation: a response, or a thrown error. -/
inductive TransportOutcome where
  | resp (r : HttpResponse)
  | thrown (msg : String)

/-- `FetchResult` from `sdk/src/types.ts`. -/
structure FetchResult where
  text : String
  status : Nat
deriving DecidableEq, Repr

/-- `buildQueryString` from `sdk/src/client.ts`: parameters are appended in
source order, each guarded by the truthiness checks of the source
(`options.limit && !options.all`, `options.sortOrder !== "newest"`, ...). -/
def buildQueryString (options : FarcasterQueryParams) : String :=
  let fidPart :=
    match options.fid with
    | some n => if n ≠ 0 then ["fid=" ++ toString n] else []
    | none => []
  let userPart :=
    match options.username with
    | some u => if u ≠ "" then ["username=" ++ normalizeUsername u] else []
    | none => []
  let limitPart :=
    match options.limit with
    | some n => if n ≠ 0 ∧ ¬ boolTrue options.all then ["limit=" ++ toString n] else []
    | none => []
  let allPart := if boolTrue options.all then ["all=true"] else []
  let repliesPart := if boolTrue options.includeReplies then ["includeReplies=true"] else []
  let parentsPart := if boolTrue options.includeParents then ["includeParents=true"] else []
  let sortPart :=
    match options.sortOrder with
    | some SortOrder.oldest => ["sortOrder=oldest"]
    | _ => []
  let reactionsPart :=
    if boolTrue options.includeReactions then ["includeReactions=true"] else []
  String.intercalate "&"
    (fidPart ++ userPart ++ limitPart ++ allPart ++ repliesPart ++ parentsPart
      ++ sortPart ++ reactionsPart)

/-- `LlmFidClient.fetch`.  The constructor picks the transport: with a signer
it is `wrapFetchWithPayment(baseFetch, ...)` (the external x402 library,
taken here as an opaque parameter that also reports how many network attempts
it made); without a signer it is `baseFetch` itself, one network attempt.
The method throws when neither `fid` nor `username` is given, issues the
request, and returns `{ text, status }` of whatever response came back;
transport errors are rethrown.  The result is paired with the number of
network attempts made. -/
def clientFetch
    (wrapFetchWithPayment : (String → TransportOutcome) → String → TransportOutcome × Nat)
    (signer : Option Unit) (baseFetch : String → TransportOutcome)
    (baseUrl : String) (options : FarcasterQueryParams) :
    Except String FetchResult × Nat :=
  if options.fid = none ∧ options.username = none then
    (.error "Either fid or username is required", 0)
  else
    let url := baseUrl ++ "?" ++ buildQueryString options
    let call :=
      match signer with
      | some _ => wrapFetchWithPayment baseFetch url
      | none => (baseFetch url, 1)
    match call.1 with
    | .resp r => (.ok ⟨r.body, r.status⟩, call.2)
    | .thrown msg => (.error msg, call.2)

/-! ## Server price estimate (`sdk/src/client.ts`, `getServerEstimate`) -/

/-- `ServerEstimate` from `sdk/src/types.ts`. -/
structure ServerEstimate where
  price : String
  isFree : Bool
  castCount : Option Nat
deriving DecidableEq, Repr

/-- Outcome of the `/estimate` request: an ok response with a parsed body, a
response with `response.ok` false, or a thrown fetch/parsing error. -/
inductive EstimateFetchOutcome where
  | success (e : ServerEstimate)
  | notOk
  | thrown

def ESTIMATE_CACHE_TTL : Nat := 60000

/-- `LlmFidClient.getServerEstimate`: free-tier requests are answered locally
as `{ price: "$0", isFree: true, castCount: null }`; otherwise the estimate
cache is consulted by pricing fingerprint (hit only when fresher than
`ESTIMATE_CACHE_TTL`); on a miss the `/estimate` endpoint is fetched — a
non-ok response or a thrown error yields `null`, a success is cached.  The
result carries the estimate (or `null`), the updated cache, and the number
of network requests issued. -/
def getServerEstimate (net : String → EstimateFetchOutcome)
    (estimateCache : List (String × ServerEstimate × Nat)) (now : Nat)
    (baseUrl : String) (options : FarcasterQueryParams) :
    Option ServerEstimate × List (String × ServerEstimate × Nat) × Nat :=
  if isFreeTier options then
    (some ⟨"$0", true, none⟩, estimateCache, 0)
  else
    let fingerprint := getPricingFingerprint options
    let cachedHit :=
      match List.lookup fingerprint estimateCache with
      | some (est, timestamp) =>
        if now - timestamp < ESTIMATE_CACHE_TTL then some est else none
      | none => none
    match cachedHit with
    | some est => (some est, estimateCache, 0)
    | none =>
      match net (baseUrl ++ "/estimate?" ++ buildQueryString options) with
      | .success e => (some e, (fingerprint, e, now) :: estimateCache, 1)
      | .notOk => (none, estimateCache, 1)
      | .thrown => (none, estimateCache, 1)

/-- Upstream that reports no match for every username. -/
def noUserUpstream : String → UserLookupResult := fun _ => .noUser

/-- A transport that always answers 402 with a challenge body. -/
def paymentRequiredBase : String → TransportOutcome :=
  fun _ => .resp ⟨402, "Payment Required"⟩

/-- A trivial stand-in for the external payment wrapper. -/
def plainWrap : (String → TransportOutcome) → String → TransportOutcome × Nat :=
  fun f url => (f url, 1)

/-- Free-tier options used by the estimate witness. -/
def estFreeOpts : FarcasterQueryParams := { limit := some 5 }

/-- Paid options used by the estimate witness. -/
def estPaidOpts : FarcasterQueryParams := { all := some true }

/-- An estimate endpoint whose response is never ok. -/
def estNetNotOk : String → EstimateFetchOutcome := fun _ => .notOk

/-! ## Pagination ordering (C2) -/

/-- A full history of 151 top-level casts, newest first — one more than a
single provider page. -/
def ds151 : List BaseCast :=
  (List.range 151).map
    (fun i => { hash := toString i, parentHash := none, timestamp := toString i })

def noCastLookup : String → CastLookup := fun _ => .missing

/-! ## Parent resolution lemmas (for C5) -/

def flattenMap {α β : Type} (g : β → List α) : List β → List α
  | [] => []
  | b :: bs => g b ++ flattenMap g bs

/-- The parent cast that the one successful lookup of the witness batch
returns. -/
def parentFoundW : BaseCast := { hash := "p1", parentHash := none, timestamp := "t0" }

/-- A lookup where the id "p1" succeeds and every other id throws. -/
def parentLookupW : String → CastLookup :=
  fun h => if h = "p1" then .found parentFoundW else .errored

def dsW : List BaseCast :=
  [{ hash := "a", parentHash := some "p1", timestamp := "2" },
   { hash := "b", parentHash := some "p2", timestamp := "1" }]

def paramsW : FarcasterQueryParams :=
  { limit := some 5, includeReplies := some true, includeParents := some true }

def castAW : FarcasterCast :=
  { hash := "a", parentHash := some "p1", timestamp := "2",
    parentCast := some parentFoundW }

def castBW : FarcasterCast :=
  { hash := "b", parentHash := some "p2", timestamp := "1", parentCast := none }

lemma effectiveLimit_ne_zero (limit : Option Nat) : effectiveLimit limit ≠ 0 := by
  unfold effectiveLimit
  match limit with
  | none => simp
  | some n =>
    by_cases h : n = 0 <;> simp [h]

lemma effectiveLimit_defaultFill (limit : Option Nat) :
    effectiveLimit (some (effectiveLimit limit)) = effectiveLimit limit := by
  unfold effectiveLimit
  match limit with
  | none => simp
  | some n => by_cases h : n = 0 <;> simp [h]

lemma getPricingFingerprint_defaultFill (o : FarcasterQueryParams) :
    getPricingFingerprint (defaultFill o) = getPricingFingerprint o := by
  unfold getPricingFingerprint defaultFill boolTrue
  simp only [Option.getD_some]
  rw [effectiveLimit_defaultFill]

/-! ## Theorems -/

/-- C3: on the reference Farcaster rule table, `isFreeTier` returns `true`
for `{limit: 10}` and `false` for `{limit: 10, includeReplies: true}`,
`{limit: 11}` and `{all: true}`; in general a request is free exactly when
its effective limit is at most 10, fetch-all is not requested, and neither
replies nor parents are requested. -/
theorem isFreeTier_reference_table :
    isFreeTier { limit := some 10 } = true
    ∧ isFreeTier { limit := some 10, includeReplies := some true } = false
    ∧ isFreeTier { limit := some 11 } = false
    ∧ isFreeTier { all := some true } = false
    ∧ ∀ o : FarcasterQueryParams,
        isFreeTier o
          = (decide (effectiveLimit o.limit ≤ FREE_TIER_maxLimit)
              && !boolTrue o.all && !boolTrue o.includeReplies
              && !boolTrue o.includeParents) := by
  refine ⟨by decide, by decide, by decide, by decide, fun o => ?_⟩
  unfold isFreeTier
  by_cases h1 : FREE_TIER_maxLimit < effectiveLimit o.limit
  · simp [h1, Nat.not_le.mpr h1]
  · have hle : effectiveLimit o.limit ≤ FREE_TIER_maxLimit := Nat.not_lt.mp h1
    simp only [if_neg h1, decide_eq_true hle, Bool.true_and]
    cases hb : boolTrue o.all
      <;> cases h2 : boolTrue o.includeReplies
      <;> cases h3 : boolTrue o.includeParents
      <;> simp [hb, h2, h3]

/-- C4: two parameter objects that are semantically equal after
default-filling (explicit `sortOrder: "newest"` versus omitted, explicit
`limit: 50` versus omitted, explicit `false` versus omitted booleans)
receive the same pricing fingerprint. -/
theorem getPricingFingerprint_default_invariant (p1 p2 : FarcasterQueryParams)
    (h : defaultFill p1 = defaultFill p2) :
    getPricingFingerprint p1 = getPricingFingerprint p2 := by
  rw [← getPricingFingerprint_defaultFill p1, ← getPricingFingerprint_defaultFill p2, h]

theorem getPricingFingerprint_default_invariant_witness :
    defaultFill { username := some "alice", limit := some 50,
                  sortOrder := some SortOrder.newest, includeReplies := some false }
        = defaultFill { username := some "alice" }
    ∧ getPricingFingerprint { username := some "alice", limit := some 50,
                              sortOrder := some SortOrder.newest,
                              includeReplies := some false }
        = getPricingFingerprint { username := some "alice" } :=
  ⟨by decide, getPricingFingerprint_default_invariant _ _ (by decide)⟩

/-- C6 counterexample: the claim says a read at or after `t0 + T` reports the
value absent, but `getCached` only treats `Date.now() > item.expiry` as
expired, so a read exactly at `t0 + T` (here `0 + 5`) still returns the
value. -/
theorem getCached_at_expiry_counterexample :
    ¬ (getCached (setCache (emptyCache : CacheMap Nat) 0 "k" 42 5) 5 "k").2 = none := by
  decide

/-- C6 (amended): a value set with `ttl = T` at time `t0` is returned by every
read at `t ≤ t0 + T` (the boundary instant included), while a read strictly
after `t0 + T` reports it absent and evicts the entry. -/
theorem getCached_setCache_ttl {α : Type} (cache : CacheMap α) (key : String)
    (v : α) (t0 ttl t : Nat) :
    (t ≤ t0 + ttl → (getCached (setCache cache t0 key v ttl) t key).2 = some v)
    ∧ (t0 + ttl < t →
        (getCached (setCache cache t0 key v ttl) t key).2 = none
        ∧ (getCached (setCache cache t0 key v ttl) t key).1 key = none) := by
  have hset : setCache cache t0 key v ttl key = some ⟨v, t0 + ttl⟩ := by
    unfold setCache
    rw [if_pos rfl]
  constructor
  · intro h
    unfold getCached
    rw [hset]
    dsimp only
    rw [if_neg (by omega)]
  · intro h
    unfold getCached
    rw [hset]
    dsimp only
    rw [if_pos (by omega)]
    refine ⟨rfl, ?_⟩
    dsimp only
    rw [if_pos rfl]

theorem getCached_setCache_ttl_witness :
    ((3 ≤ 0 + 5)
      ∧ (getCached (setCache (emptyCache : CacheMap Nat) 0 "k" 42 5) 3 "k").2 = some 42)
    ∧ ((0 + 5 < 6)
      ∧ (getCached (setCache (emptyCache : CacheMap Nat) 0 "k" 42 5) 6 "k").2 = none
      ∧ (getCached (setCache (emptyCache : CacheMap Nat) 0 "k" 42 5) 6 "k").1 "k" = none) :=
  ⟨⟨by decide, (getCached_setCache_ttl (emptyCache : CacheMap Nat) "k" 42 0 5 3).1 (by decide)⟩,
   ⟨by decide,
    ((getCached_setCache_ttl (emptyCache : CacheMap Nat) "k" 42 0 5 6).2 (by decide)).1,
    ((getCached_setCache_ttl (emptyCache : CacheMap Nat) "k" 42 0 5 6).2 (by decide)).2⟩⟩

/-- C7 counterexample: when the provider reports no match, the request fails
with `User not found`, but the route catch-all surfaces it with status 500 —
which is not a 4xx status — exactly as it surfaces upstream failures. -/
theorem resolveFid_notFound_status_counterexample :
    (match resolveFid noUserUpstream (emptyCache : CacheMap Nat) 0 "ghost" with
      | .error e => (handleRequestError e).1
      | .ok _ => 0) = 500
    ∧ ¬ (400 ≤ 500 ∧ 500 < 500) := by
  exact ⟨rfl, by omega⟩

/-- C7 (amended): when identifier resolution finds no match at the provider
(and the cache has no usable entry), the request terminates with the
`User not found` error, and the HTTP catch-all surfaces every such error —
like every upstream failure — with status 500; only the message text
distinguishes the two. -/
theorem resolveFid_notFound_surfaced_500 (lookupUser : String → UserLookupResult)
    (cache : CacheMap Nat) (now : Nat) (username : String)
    (hmiss : (getCached cache now ("fid:" ++ normalizeUsername username)).2 = none)
    (hno : lookupUser (normalizeUsername username) = .noUser) :
    resolveFid lookupUser cache now username
        = .error (.notFound ("User not found: " ++ username))
    ∧ ∀ e : AppError, (handleRequestError e).1 = 500 := by
  constructor
  · unfold resolveFid
    simp only [hmiss, hno]
  · intro e
    cases e <;> rfl

theorem resolveFid_notFound_surfaced_500_witness :
    ((getCached (emptyCache : CacheMap Nat) 0 ("fid:" ++ normalizeUsername "ghost2")).2 = none
      ∧ noUserUpstream (normalizeUsername "ghost2") = .noUser)
    ∧ resolveFid noUserUpstream (emptyCache : CacheMap Nat) 0 "ghost2"
        = .error (.notFound ("User not found: " ++ "ghost2")) :=
  ⟨⟨by decide, rfl⟩,
   (resolveFid_notFound_surfaced_500 noUserUpstream (emptyCache : CacheMap Nat) 0 "ghost2"
      (by decide) rfl).1⟩

/-- C8: for a client constructed without a signer, a fetch whose response
signals payment required (status 402) is returned to the caller untouched —
the body and the 402 status as-is, in exactly one network attempt, with no
error thrown — whatever the payment wrapper would have done. -/
theorem clientFetch_noSigner_402_passthrough
    (wrap : (String → TransportOutcome) → String → TransportOutcome × Nat)
    (baseFetch : String → TransportOutcome) (baseUrl : String)
    (options : FarcasterQueryParams) (r : HttpResponse)
    (hid : ¬ (options.fid = none ∧ options.username = none))
    (hresp : baseFetch (baseUrl ++ "?" ++ buildQueryString options) = .resp r)
    (h402 : r.status = 402) :
    clientFetch wrap none baseFetch baseUrl options = (.ok ⟨r.body, 402⟩, 1) := by
  unfold clientFetch
  rw [if_neg hid]
  simp only [hresp, h402]

theorem clientFetch_noSigner_402_passthrough_witness :
    (¬ (({ username := some "alice" } : FarcasterQueryParams).fid = none
        ∧ ({ username := some "alice" } : FarcasterQueryParams).username = none))
    ∧ clientFetch plainWrap none paymentRequiredBase "https://api.llm-fid.fun"
        { username := some "alice" }
      = (.ok ⟨"Payment Required", 402⟩, 1) :=
  ⟨by decide,
   clientFetch_noSigner_402_passthrough plainWrap paymentRequiredBase "https://api.llm-fid.fun"
     { username := some "alice" } ⟨402, "Payment Required"⟩ (by decide) rfl rfl⟩

/-- C9 (implicit): an omitted `limit` behaves as 50 on both sides — the
server `fetchCasts` is unchanged by replacing an omitted limit with an
explicit 50, and so is the client `isFreeTier`; hence a request with an
omitted limit and no other options is not free, while any explicit limit
between 1 and 10 with no other options is. -/
theorem defaultLimit_is_50 :
    (∀ (dataset : List BaseCast) (lookupCast : String → CastLookup)
        (p : FarcasterQueryParams),
      fetchCasts dataset lookupCast { p with limit := none }
        = fetchCasts dataset lookupCast { p with limit := some 50 })
    ∧ (∀ o : FarcasterQueryParams,
        isFreeTier { o with limit := none } = isFreeTier { o with limit := some 50 })
    ∧ (∀ (fid : Option Nat) (username : Option String) (sortOrder : Option SortOrder)
          (includeReactions : Option Bool),
        isFreeTier ⟨fid, username, none, sortOrder, none, none, includeReactions, none⟩
          = false)
    ∧ (∀ (fid : Option Nat) (username : Option String) (sortOrder : Option SortOrder)
          (includeReactions : Option Bool) (n : Nat), 0 < n → n ≤ 10 →
        isFreeTier ⟨fid, username, some n, sortOrder, none, none, includeReactions, none⟩
          = true) := by
  refine ⟨fun dataset lookupCast p => rfl, fun o => rfl, fun _ _ _ _ => rfl, ?_⟩
  intro fid username sortOrder includeReactions n hn hle
  unfold isFreeTier
  simp only [effectiveLimit, if_neg (by omega : ¬ n = 0)]
  rw [if_neg (by simp [FREE_TIER_maxLimit]; omega)]
  rfl

theorem defaultLimit_is_50_witness :
    (0 < 10 ∧ 10 ≤ 10)
    ∧ isFreeTier ⟨none, some "alice", some 10, none, none, none, none, none⟩ = true :=
  ⟨by decide,
   defaultLimit_is_50.2.2.2 none (some "alice") none none 10 (by decide) (by decide)⟩

/-- C10 (implicit): `getServerEstimate` answers free-tier options locally as
`{price: "$0", isFree: true, castCount: null}` with zero network requests
and an unchanged cache; for non-free options (with no cached estimate) whose
request returns a non-ok status or throws, it returns `null` instead of
throwing. -/
theorem getServerEstimate_free_and_error_paths :
    (∀ (net : String → EstimateFetchOutcome)
        (cache : List (String × ServerEstimate × Nat)) (now : Nat) (baseUrl : String)
        (o : FarcasterQueryParams), isFreeTier o = true →
      getServerEstimate net cache now baseUrl o = (some ⟨"$0", true, none⟩, cache, 0))
    ∧ (∀ (net : String → EstimateFetchOutcome) (now : Nat) (baseUrl : String)
        (o : FarcasterQueryParams), isFreeTier o = false →
        (net (baseUrl ++ "/estimate?" ++ buildQueryString o) = .notOk
          ∨ net (baseUrl ++ "/estimate?" ++ buildQueryString o) = .thrown) →
      (getServerEstimate net [] now baseUrl o).1 = none) := by
  constructor
  · intro net cache now baseUrl o hfree
    unfold getServerEstimate
    simp only [hfree]
    rfl
  · intro net now baseUrl o hpaid hnet
    unfold getServerEstimate
    simp only [hpaid]
    rcases hnet with h | h <;> simp [h, List.lookup]

theorem getServerEstimate_free_and_error_paths_witness :
    (isFreeTier estFreeOpts = true
      ∧ getServerEstimate estNetNotOk [] 0 "https://api.llm-fid.fun" estFreeOpts
          = (some ⟨"$0", true, none⟩, [], 0))
    ∧ (isFreeTier estPaidOpts = false
      ∧ (getServerEstimate estNetNotOk [] 0 "https://api.llm-fid.fun" estPaidOpts).1 = none) :=
  ⟨⟨by decide,
    getServerEstimate_free_and_error_paths.1 estNetNotOk [] 0 "https://api.llm-fid.fun"
      estFreeOpts (by decide)⟩,
   ⟨by decide,
    getServerEstimate_free_and_error_paths.2 estNetNotOk 0 "https://api.llm-fid.fun"
      estPaidOpts (by decide) (Or.inl rfl)⟩⟩

/-! ## Rate limiter lemmas (for C1) -/

lemma cleanOldRequests_length_le (now : Nat) (l : List Nat) :
    (cleanOldRequests now l).length ≤ l.length :=
  List.length_filter_le _ _

/-- The per-endpoint window length never exceeds `ENDPOINT_LIMIT` in any
reachable state: pruning shrinks it and a push happens only strictly below
the ceiling. -/
lemma runCalls_endpoint_length (calls : List (String × Nat)) :
    ∀ st : RateLimiterState,
      (∀ e, (st.endpointRequests e).length ≤ ENDPOINT_LIMIT) →
      ∀ e, ((runCalls st calls).endpointRequests e).length ≤ ENDPOINT_LIMIT := by
  induction calls with
  | nil =>
    intro st h e
    exact h e
  | cons c rest ih =>
    intro st h e
    refine ih _ (fun e' => ?_) e
    unfold waitForSlotStep
    split
    · dsimp only
      by_cases he : e' = c.1
      · rw [if_pos he]
        exact le_trans (cleanOldRequests_length_le _ _) (h c.1)
      · rw [if_neg he]
        exact h e'
    · rename_i hc
      push_neg at hc
      dsimp only
      by_cases he : e' = c.1
      · rw [if_pos he]
        rw [List.length_append]
        have := hc.2
        simp only [List.length_cons, List.length_nil]
        omega
      · rw [if_neg he]
        exact h e'

/-- The global window length never exceeds `GLOBAL_LIMIT` in any reachable
state. -/
lemma runCalls_global_length (calls : List (String × Nat)) :
    ∀ st : RateLimiterState, st.globalRequests.length ≤ GLOBAL_LIMIT →
      (runCalls st calls).globalRequests.length ≤ GLOBAL_LIMIT := by
  induction calls with
  | nil =>
    intro st h
    exact h
  | cons c rest ih =>
    intro st h
    refine ih _ ?_
    unfold waitForSlotStep
    split
    · exact le_trans (cleanOldRequests_length_le _ _) h
    · rename_i hc
      push_neg at hc
      dsimp only
      rw [List.length_append]
      have := hc.1
      simp only [List.length_cons, List.length_nil]
      omega

/-- Pruning at an earlier time is invisible to the trailing window of a later
time: entries inside the window at `tEnd` were inside it at `now ≤ tEnd`. -/
lemma filter_window_cleanOldRequests (tEnd now : Nat) (hle : now ≤ tEnd)
    (l : List Nat) :
    (cleanOldRequests now l).filter (fun ts => decide (tEnd - ts < WINDOW_MS))
      = l.filter (fun ts => decide (tEnd - ts < WINDOW_MS)) := by
  unfold cleanOldRequests
  rw [List.filter_filter]
  refine List.filter_congr ?_
  intro ts _
  by_cases h : tEnd - ts < WINDOW_MS
  · have h2 : now - ts < WINDOW_MS :=
      Nat.lt_of_le_of_lt (Nat.sub_le_sub_right hle ts) h
    simp [h, h2]
  · simp [h]

/-- Within the trailing window of any time `tEnd` at or after every call of
the trace, the stored per-endpoint window and the full list of admitted
timestamps for that endpoint agree. -/
lemma runCalls_endpoint_filter (tEnd : Nat) (e : String) :
    ∀ (calls : List (String × Nat)) (st : RateLimiterState),
      (∀ c ∈ calls, c.2 ≤ tEnd) →
      ((runCalls st calls).endpointRequests e).filter
          (fun ts => decide (tEnd - ts < WINDOW_MS))
        = (st.endpointRequests e ++ admittedEndpoint st e calls).filter
            (fun ts => decide (tEnd - ts < WINDOW_MS)) := by
  intro calls
  induction calls with
  | nil =>
    intro st _
    simp [runCalls, admittedEndpoint]
  | cons c rest ih =>
    intro st h
    have hc : c.2 ≤ tEnd := h c (List.mem_cons_self c rest)
    have hrest : ∀ c' ∈ rest, c'.2 ≤ tEnd := fun c' hm => h c' (List.mem_cons_of_mem _ hm)
    rw [show runCalls st (c :: rest) = runCalls (waitForSlotStep st c.1 c.2).1 rest from rfl]
    rw [ih _ hrest]
    rw [show admittedEndpoint st e (c :: rest)
        = (if (waitForSlotStep st c.1 c.2).2 = true ∧ c.1 = e then [c.2] else [])
            ++ admittedEndpoint (waitForSlotStep st c.1 c.2).1 e rest from rfl]
    simp only [List.filter_append]
    rw [← List.append_assoc]
    refine congrArg (· ++ _) ?_
    unfold waitForSlotStep
    by_cases hadm : GLOBAL_LIMIT ≤ (cleanOldRequests c.2 st.globalRequests).length
        ∨ ENDPOINT_LIMIT ≤ (cleanOldRequests c.2 (st.endpointRequests c.1)).length
    · rw [if_pos hadm]
      dsimp only
      by_cases he : e = c.1
      · rw [if_pos he, he]
        rw [filter_window_cleanOldRequests tEnd c.2 hc]
        simp
      · rw [if_neg he]
        simp
    · rw [if_neg hadm]
      dsimp only
      by_cases he : e = c.1
      · rw [if_pos he]
        rw [List.filter_append, filter_window_cleanOldRequests tEnd c.2 hc, he]
        simp [he.symm]
      · rw [if_neg he]
        have : ¬ (true = true ∧ c.1 = e) := by
          intro hcontr
          exact he hcontr.2.symm
        rw [if_neg this]
        simp

/-- Within the trailing window of any time `tEnd` at or after every call of
the trace, the stored global window and the full list of globally admitted
timestamps agree. -/
lemma runCalls_global_filter (tEnd : Nat) :
    ∀ (calls : List (String × Nat)) (st : RateLimiterState),
      (∀ c ∈ calls, c.2 ≤ tEnd) →
      ((runCalls st calls).globalRequests).filter
          (fun ts => decide (tEnd - ts < WINDOW_MS))
        = (st.globalRequests ++ admittedGlobal st calls).filter
            (fun ts => decide (tEnd - ts < WINDOW_MS)) := by
  intro calls
  induction calls with
  | nil =>
    intro st _
    simp [runCalls, admittedGlobal]
  | cons c rest ih =>
    intro st h
    have hc : c.2 ≤ tEnd := h c (List.mem_cons_self c rest)
    have hrest : ∀ c' ∈ rest, c'.2 ≤ tEnd := fun c' hm => h c' (List.mem_cons_of_mem _ hm)
    rw [show runCalls st (c :: rest) = runCalls (waitForSlotStep st c.1 c.2).1 rest from rfl]
    rw [ih _ hrest]
    rw [show admittedGlobal st (c :: rest)
        = (if (waitForSlotStep st c.1 c.2).2 = true then [c.2] else [])
            ++ admittedGlobal (waitForSlotStep st c.1 c.2).1 rest from rfl]
    simp only [List.filter_append]
    rw [← List.append_assoc]
    refine congrArg (· ++ _) ?_
    unfold waitForSlotStep
    by_cases hadm : GLOBAL_LIMIT ≤ (cleanOldRequests c.2 st.globalRequests).length
        ∨ ENDPOINT_LIMIT ≤ (cleanOldRequests c.2 (st.endpointRequests c.1)).length
    · rw [if_pos hadm]
      dsimp only
      rw [filter_window_cleanOldRequests tEnd c.2 hc]
      simp
    · rw [if_neg hadm]
      dsimp only
      rw [List.filter_append, filter_window_cleanOldRequests tEnd c.2 hc]
      simp

/-- C1: over every trace of `waitForSlot` evaluations (at arbitrary endpoints
and times), the number of admitted calls whose timestamps lie within the
trailing 60-second window of any instant `tEnd` at or after the calls never
exceeds 250 for a single endpoint key and never exceeds 450 globally;
moreover whenever either pruned window is at or above its ceiling the
evaluation admits nothing (the caller suspends and re-evaluates). -/
theorem rateLimiter_sliding_window_bounds (calls : List (String × Nat)) (e : String)
    (tEnd : Nat) (h : ∀ c ∈ calls, c.2 ≤ tEnd) :
    ((admittedEndpoint initRateLimiter e calls).filter
        (fun ts => decide (tEnd - ts < WINDOW_MS))).length ≤ ENDPOINT_LIMIT
    ∧ ((admittedGlobal initRateLimiter calls).filter
        (fun ts => decide (tEnd - ts < WINDOW_MS))).length ≤ GLOBAL_LIMIT
    ∧ ∀ (st : RateLimiterState) (endpoint : String) (now : Nat),
        GLOBAL_LIMIT ≤ (cleanOldRequests now st.globalRequests).length
          ∨ ENDPOINT_LIMIT ≤ (cleanOldRequests now (st.endpointRequests endpoint)).length →
        (waitForSlotStep st endpoint now).2 = false := by
  refine ⟨?_, ?_, ?_⟩
  · have hfe := runCalls_endpoint_filter tEnd e calls initRateLimiter h
    simp only [initRateLimiter, List.nil_append] at hfe
    simp only [initRateLimiter]
    rw [← hfe]
    exact le_trans (List.length_filter_le _ _)
      (runCalls_endpoint_length calls initRateLimiter
        (fun _ => by simp [initRateLimiter]) e)
  · have hfg := runCalls_global_filter tEnd calls initRateLimiter h
    simp only [initRateLimiter, List.nil_append] at hfg
    simp only [initRateLimiter]
    rw [← hfg]
    exact le_trans (List.length_filter_le _ _)
      (runCalls_global_length calls initRateLimiter (by simp [initRateLimiter]))
  · intro st endpoint now hcond
    unfold waitForSlotStep
    rw [if_pos hcond]

theorem rateLimiter_sliding_window_bounds_witness :
    (∀ c ∈ [(("casts" : String), (5 : Nat))], c.2 ≤ 10)
    ∧ ((admittedEndpoint initRateLimiter "casts" [("casts", 5)]).filter
        (fun ts => decide (10 - ts < WINDOW_MS))).length ≤ ENDPOINT_LIMIT :=
  ⟨by decide, (rateLimiter_sliding_window_bounds [("casts", 5)] "casts" 10 (by decide)).1⟩

/-- C2 counterexample: with `sortOrder: "oldest", limit: 1` over a 151-cast
history the pagination loop stops after the first page of 150, so the code
returns the oldest *fetched* cast (hash "149"), not the oldest cast of the
full history (hash "150") — truncation is applied after sorting only the
pages fetched so far. -/
theorem fetchCasts_oldest_not_full_history :
    ¬ (fetchCasts ds151 noCastLookup
          { limit := some 1, sortOrder := some SortOrder.oldest }
        = (ds151.reverse.take 1).map (fun c => { toBaseCast := c, parentCast := none })) := by
  set_option maxRecDepth 10000 in decide

lemma fetchCastsLoop_single_page (fetchAll : Bool) (limit : Nat) (ds : List BaseCast)
    (hlen : ds.length ≤ PAGE_SIZE) :
    fetchCastsLoop true fetchAll limit ds.length [] ds = ds := by
  match ds, hlen with
  | [], _ => rfl
  | x :: t, hlen =>
    have htake : (x :: t).take PAGE_SIZE = x :: t := List.take_of_length_le hlen
    have hdrop : (x :: t).drop PAGE_SIZE = [] := List.drop_eq_nil_of_le hlen
    show fetchCastsLoop true fetchAll limit (t.length + 1) [] (x :: t) = x :: t
    simp only [fetchCastsLoop, htake, hdrop, List.isEmpty_nil, if_true, List.nil_append]
    simp

/-- C2 (amended): with a bounded limit `N` and `sortOrder: "oldest"`, the
returned casts are the last `N` items of the *fetched* prefix in
chronological order; this equals the last `N` items of full history exactly
when the history fits in the pages fetched — in particular whenever it fits
in a single provider page of 150, as proved here. -/
theorem fetchCasts_oldest_single_page (ds : List BaseCast)
    (lookupCast : String → CastLookup) (N : Nat) (hN : N ≠ 0)
    (hlen : ds.length ≤ PAGE_SIZE) :
    fetchCasts ds lookupCast
        { limit := some N, sortOrder := some SortOrder.oldest,
          includeReplies := some true }
      = (ds.reverse.take N).map (fun c => { toBaseCast := c, parentCast := none }) := by
  have h1 : fetchCasts ds lookupCast
        { limit := some N, sortOrder := some SortOrder.oldest,
          includeReplies := some true }
      = ((fetchCastsLoop true false (effectiveLimit (some N)) ds.length [] ds).reverse.map
          (fun c => { toBaseCast := c, parentCast := none })).take
            (effectiveLimit (some N)) := rfl
  have heff : effectiveLimit (some N) = N := by simp [effectiveLimit, hN]
  rw [h1, heff, fetchCastsLoop_single_page false N ds hlen, List.map_take]

theorem fetchCasts_oldest_single_page_witness :
    ((2 : Nat) ≠ 0
      ∧ ([⟨"b", none, "1"⟩, ⟨"a", none, "0"⟩] : List BaseCast).length ≤ PAGE_SIZE)
    ∧ fetchCasts [⟨"b", none, "1"⟩, ⟨"a", none, "0"⟩] noCastLookup
        { limit := some 2, sortOrder := some SortOrder.oldest, includeReplies := some true }
      = (([⟨"b", none, "1"⟩, ⟨"a", none, "0"⟩] : List BaseCast).reverse.take 2).map
          (fun c => { toBaseCast := c, parentCast := none }) :=
  ⟨⟨by decide, by decide⟩,
   fetchCasts_oldest_single_page [⟨"b", none, "1"⟩, ⟨"a", none, "0"⟩] noCastLookup 2
     (by decide) (by decide)⟩

lemma foldl_append_flattenMap {α β : Type} (g : β → List α) :
    ∀ (chunks : List β) (acc : List α),
      chunks.foldl (fun m b => m ++ g b) acc = acc ++ flattenMap g chunks := by
  intro chunks
  induction chunks with
  | nil =>
    intro acc
    simp [flattenMap]
  | cons b bs ih =>
    intro acc
    rw [List.foldl_cons, ih]
    show acc ++ g b ++ flattenMap g bs = acc ++ (g b ++ flattenMap g bs)
    rw [List.append_assoc]

lemma entriesOfBatch_append (lookupCast : String → CastLookup) (l1 l2 : List String) :
    entriesOfBatch lookupCast (l1 ++ l2)
      = entriesOfBatch lookupCast l1 ++ entriesOfBatch lookupCast l2 := by
  simp [entriesOfBatch, batchResults, List.filterMap_append]

lemma flattenMap_chunkBatchesGo (lookupCast : String → CastLookup) :
    ∀ (fuel : Nat) (l : List String), l.length ≤ fuel →
      flattenMap (entriesOfBatch lookupCast) (chunkBatchesGo fuel l)
        = entriesOfBatch lookupCast l := by
  intro fuel
  induction fuel with
  | zero =>
    intro l hl
    have hnil : l = [] := List.eq_nil_of_length_eq_zero (Nat.le_zero.mp hl)
    subst hnil
    rfl
  | succ n ih =>
    intro l hl
    match l with
    | [] => rfl
    | x :: t =>
      show flattenMap (entriesOfBatch lookupCast)
          ((x :: t).take BATCH_SIZE :: chunkBatchesGo n ((x :: t).drop BATCH_SIZE))
        = entriesOfBatch lookupCast (x :: t)
      rw [flattenMap]
      rw [ih ((x :: t).drop BATCH_SIZE)
        (by simp only [List.length_drop, List.length_cons, BATCH_SIZE] at hl ⊢; omega)]
      rw [← entriesOfBatch_append, List.take_append_drop]

lemma buildParentMap_eq_entries (lookupCast : String → CastLookup)
    (hashes : List String) :
    buildParentMap lookupCast hashes = entriesOfBatch lookupCast hashes := by
  unfold buildParentMap chunkBatches
  rw [foldl_append_flattenMap (entriesOfBatch lookupCast)]
  rw [flattenMap_chunkBatchesGo lookupCast hashes.length hashes (Nat.le_refl _)]
  rfl

lemma lookup_entriesOfBatch_none (lookupCast : String → CastLookup) (h : String)
    (hres : castLookupResult (lookupCast h) = none) :
    ∀ l : List String, List.lookup h (entriesOfBatch lookupCast l) = none := by
  intro l
  induction l with
  | nil => rfl
  | cons a t ih =>
    cases hra : castLookupResult (lookupCast a) with
    | none =>
      have hent : entriesOfBatch lookupCast (a :: t) = entriesOfBatch lookupCast t := by
        simp [entriesOfBatch, batchResults, List.filterMap_cons, hra]
      rw [hent, ih]
    | some c =>
      have hent : entriesOfBatch lookupCast (a :: t)
          = (a, c) :: entriesOfBatch lookupCast t := by
        simp [entriesOfBatch, batchResults, List.filterMap_cons, hra]
      rw [hent]
      by_cases hha : h = a
      · subst hha
        rw [hres] at hra
        cases hra
      · have hbeq : (h == a) = false := beq_eq_false_iff_ne.mpr hha
        simp [List.lookup, hbeq, ih]

lemma lookup_entriesOfBatch (lookupCast : String → CastLookup) (h : String) :
    ∀ l : List String, h ∈ l →
      List.lookup h (entriesOfBatch lookupCast l) = castLookupResult (lookupCast h) := by
  intro l
  induction l with
  | nil =>
    intro hm
    cases hm
  | cons a t ih =>
    intro hm
    cases hra : castLookupResult (lookupCast a) with
    | none =>
      have hent : entriesOfBatch lookupCast (a :: t) = entriesOfBatch lookupCast t := by
        simp [entriesOfBatch, batchResults, List.filterMap_cons, hra]
      rw [hent]
      by_cases hha : h = a
      · subst hha
        rw [hra]
        exact lookup_entriesOfBatch_none lookupCast h hra t
      · rcases List.mem_cons.mp hm with hrfl | hmt
        · exact absurd hrfl hha
        · exact ih hmt
    | some c =>
      have hent : entriesOfBatch lookupCast (a :: t)
          = (a, c) :: entriesOfBatch lookupCast t := by
        simp [entriesOfBatch, batchResults, List.filterMap_cons, hra]
      rw [hent]
      by_cases hha : h = a
      · subst hha
        simp [List.lookup]
        exact hra.symm
      · rcases List.mem_cons.mp hm with hrfl | hmt
        · exact absurd hrfl hha
        · have hbeq : (h == a) = false := beq_eq_false_iff_ne.mpr hha
          simp [List.lookup, hbeq]
          exact ih hmt

lemma mem_dedupFirst_aux :
    ∀ (l : List String) (acc : List String) (x : String),
      x ∈ acc ∨ x ∈ l →
      x ∈ l.foldl (fun acc y => if y ∈ acc then acc else acc ++ [y]) acc := by
  intro l
  induction l with
  | nil =>
    intro acc x hx
    rcases hx with h | h
    · exact h
    · cases h
  | cons a t ih =>
    intro acc x hx
    rw [List.foldl_cons]
    apply ih
    rcases hx with h | h
    · left
      by_cases ha : a ∈ acc
      · rw [if_pos ha]
        exact h
      · rw [if_neg ha]
        exact List.mem_append_left _ h
    · rcases List.mem_cons.mp h with hrfl | hmt
      · subst hrfl
        left
        by_cases ha : x ∈ acc
        · rw [if_pos ha]
          exact ha
        · rw [if_neg ha]
          exact List.mem_append_right _ (List.mem_singleton.mpr rfl)
      · right
        exact hmt

lemma mem_dedupFirst (l : List String) (x : String) (hx : x ∈ l) :
    x ∈ dedupFirst l :=
  mem_dedupFirst_aux l [] x (Or.inr hx)

/-- C5: with `includeParents`, every returned item carries exactly the parent
link its own lookup produced — a throwing or empty lookup for one parent id
leaves only the items referencing that id without `parentCast`, while the
other ids of the batch still populate theirs, and no lookup error reaches
the caller (the fetch is total). -/
theorem fetchCasts_parent_resolution_isolated (dataset : List BaseCast)
    (lookupCast : String → CastLookup) (params : FarcasterQueryParams)
    (hp : params.includeParents = some true) (c : FarcasterCast)
    (hmem : c ∈ fetchCasts dataset lookupCast params) :
    c.parentCast =
      match c.parentHash with
      | some h => if h = "" then none else castLookupResult (lookupCast h)
      | none => none := by
  unfold fetchCasts at hmem
  rw [hp] at hmem
  simp only [beq_self_eq_true, if_true] at hmem
  have hmem2 := hmem
  split at hmem2
  case isTrue =>
    rcases List.mem_map.mp hmem2 with ⟨c0, hc0, hceq⟩
    subst hceq
    dsimp only
    cases hph : c0.parentHash with
    | none => rfl
    | some h =>
      dsimp only
      by_cases hh : h = ""
      · rw [if_pos hh, if_pos hh]
      · rw [if_neg hh, if_neg hh]
        rw [buildParentMap_eq_entries]
        apply lookup_entriesOfBatch
        apply mem_dedupFirst
        apply List.mem_filterMap.mpr
        exact ⟨c0, hc0, by rw [hph]; simp [hh]⟩
  case isFalse =>
    have hmem3 := List.take_subset _ _ hmem2
    rcases List.mem_map.mp hmem3 with ⟨c0, hc0, hceq⟩
    subst hceq
    dsimp only
    cases hph : c0.parentHash with
    | none => rfl
    | some h =>
      dsimp only
      by_cases hh : h = ""
      · rw [if_pos hh, if_pos hh]
      · rw [if_neg hh, if_neg hh]
        rw [buildParentMap_eq_entries]
        apply lookup_entriesOfBatch
        apply mem_dedupFirst
        apply List.mem_filterMap.mpr
        exact ⟨c0, hc0, by rw [hph]; simp [hh]⟩

theorem fetchCasts_parent_resolution_isolated_witness :
    (paramsW.includeParents = some true
      ∧ castAW ∈ fetchCasts dsW parentLookupW paramsW
      ∧ castBW ∈ fetchCasts dsW parentLookupW paramsW)
    ∧ castAW.parentCast = some parentFoundW
    ∧ castBW.parentCast = none :=
  ⟨⟨rfl, by decide, by decide⟩,
   fetchCasts_parent_resolution_isolated dsW parentLookupW paramsW rfl castAW (by decide),
   fetchCasts_parent_resolution_isolated dsW parentLookupW paramsW rfl castBW (by decide)⟩
